import Mathlib

/-!
Shallow embedding of the researcher pipeline in
`scripts/researcher-pipeline/run.mjs` of the repository
`xxtars/awesome-affective-computing`, together with proofs about the
claims on its deduplication tie-break order, analysis caching and retry
logic, numeric clamping, fetch bounding and topic-summary reuse.

Modelling conventions, used throughout:
* JavaScript strings are Lean `String`s; a missing / `null` / `undefined`
  string field is modelled as `""` (matching the source's
  `String(x || "")` coercions, for which all of those values collapse to
  the empty string).
* JavaScript string comparison (`<`, `>`) is modelled by lexicographic
  comparison of the character code sequences (`listStrLt`).
* `String.prototype.toLowerCase` / `toUpperCase` are modelled with the
  ASCII `Char.toLower` / `Char.toUpper`; all strings the pipeline
  compares case-insensitively (source types, ids, "arxiv") are ASCII.
* JavaScript numbers appearing in the pipeline are modelled as exact
  rationals (`ℚ`); the coerced result of `Number(x)` on an arbitrary
  JSON value is modelled as `Option ℚ`, `none` standing for a
  non-finite result (`NaN`, `±Infinity`).
* A JavaScript `Map` / plain object used as a dictionary is modelled as
  an association list in insertion order: `jsMapSet` overwrites in place
  (keeping the original position, as `Map.set` does) or appends.
* `crypto.createHash("sha256")` over the fingerprint string is modelled
  by the fingerprint string itself (a collision-free stand-in).
* `new Date().toISOString()` is passed in as an explicit `now` argument.
-/

/-- True exactly on the ASCII characters kept by the source regex
`[^a-z0-9]` after lowercasing (`normalizeTitle`, run.mjs:445-450). -/
def isLowerAlnum (c : Char) : Bool :=
  (decide ('a' ≤ c) && decide (c ≤ 'z')) || (decide ('0' ≤ c) && decide (c ≤ '9'))

/-- Character-wise ASCII lowering, modelling `String.prototype.toLowerCase`. -/
def jsToLower (s : String) : String :=
  String.mk (s.toList.map Char.toLower)

/-- Character-wise ASCII uppering, modelling `String.prototype.toUpperCase`. -/
def jsToUpper (s : String) : String :=
  String.mk (s.toList.map Char.toUpper)

/-- Squeeze runs of adjacent spaces down to a single space. -/
def squeezeSpaces : List Char → List Char
  | [] => []
  | [c] => [c]
  | a :: b :: rest =>
    if a = ' ' && b = ' ' then squeezeSpaces (b :: rest)
    else a :: squeezeSpaces (b :: rest)

/-- Drop whitespace from both ends of a character list, modelling
`String.prototype.trim`. -/
def trimChars (l : List Char) : List Char :=
  ((l.dropWhile Char.isWhitespace).reverse.dropWhile Char.isWhitespace).reverse

/-- Embeds `normalizeTitle` (run.mjs:445-450): lowercase, replace every run
of non-`[a-z0-9]` characters by a single space, trim.  The regex
`.replace(/[^a-z0-9]+/g, " ")` is implemented as a pointwise map to `' '`
followed by squeezing adjacent spaces, which replaces each maximal run by
one space. -/
def normalizeTitle (title : String) : String :=
  String.mk (trimChars (squeezeSpaces
    ((jsToLower title).toList.map (fun c => if isLowerAlnum c then c else ' '))))

/-- True when the five characters "arxiv" occur at the head of the list. -/
def arxivAtHead : List Char → Bool
  | c1 :: c2 :: c3 :: c4 :: c5 :: _ =>
    c1 = 'a' && c2 = 'r' && c3 = 'x' && c4 = 'i' && c5 = 'v'
  | _ => false

/-- True when the substring "arxiv" occurs anywhere in the list, modelling
`String.prototype.includes("arxiv")`. -/
def containsArxiv : List Char → Bool
  | [] => false
  | c :: rest => arxivAtHead (c :: rest) || containsArxiv rest

/-- JavaScript `a || b` on strings, where the empty string is falsy. -/
def jsOr (a b : String) : String :=
  if a = "" then b else a

/-- Strict lexicographic comparison of character lists by character code,
modelling JavaScript string `<`. -/
def listStrLt : List Char → List Char → Bool
  | [], [] => false
  | [], _ :: _ => true
  | _ :: _, [] => false
  | c :: cs, d :: ds =>
    if c.toNat < d.toNat then true
    else if d.toNat < c.toNat then false
    else listStrLt cs ds

/-- JavaScript string `a > b` (strictly greater). -/
def strGtB (a b : String) : Bool :=
  listStrLt b.toList a.toList

/-- Strictly-greater on `Nat` as a `Bool`, for the comparator layers. -/
def natGtB (a b : Nat) : Bool :=
  decide (b < a)

/-- The normalized `Analysis` payload attached to a work
(shape of `normalizePaperFilter` merged with `normalizePaperExtraction`,
run.mjs:836-858). -/
structure Analysis where
  is_interesting : Bool
  relevance_score : ℚ
  confidence : ℚ
  reason : String
  evidence : List String
  tldr : String
  research_directions : List String
deriving DecidableEq, Repr

/-- A mapped `Work` record, with exactly the fields the verified
operations read (run.mjs:640-718).  String fields use `""` for a missing
value, mirroring the source's `|| null` / `String(x || "")` handling;
`source_display_name` and `source_type` are `work.source.display_name`
and `work.source.type`; `analysis` is the per-paper analysis attached
after `analyzePaper` (absent on freshly fetched works). -/
structure Work where
  id : String
  title : String
  type : String
  source_display_name : String
  primary_source : String
  source_type : String
  cited_by_count : Nat
  publication_date : String
  abstract : String
  analysis : Option Analysis
deriving DecidableEq, Repr

/-- The lowercased source name `String(work?.source?.display_name ||
work?.primary_source || "").toLowerCase()` used by `isPreprintWork` and
`isArxivOrgSource` (run.mjs:535, 540). -/
def sourceNameOf (w : Work) : String :=
  jsToLower (jsOr w.source_display_name w.primary_source)

/-- Embeds `isPreprintWork` (run.mjs:533-537). -/
def isPreprintWork (w : Work) : Bool :=
  decide (jsToLower w.type = "preprint") || containsArxiv (sourceNameOf w).toList

/-- Embeds `isArxivOrgSource` (run.mjs:539-542). -/
def isArxivOrgSource (w : Work) : Bool :=
  decide (sourceNameOf w = "arxiv.org")

/-- Embeds `publishedVenuePriority` (run.mjs:544-551). -/
def publishedVenuePriority (w : Work) : Nat :=
  let sourceType := jsToLower w.source_type
  if sourceType = "journal" then 5
  else if sourceType = "conference" then 4
  else if sourceType = "book_series" then 3
  else if sourceType = "repository" then 1
  else 2

/-- Embeds `isBetterWorkCandidate` (run.mjs:553-579): the tie-break chain
preprint status, arxiv.org among preprints, venue priority, citation
count, publication date, external id. -/
def isBetterWorkCandidate (candidate current : Work) : Bool :=
  let candidatePreprint := isPreprintWork candidate
  let currentPreprint := isPreprintWork current
  if candidatePreprint ≠ currentPreprint then !candidatePreprint
  else if candidatePreprint && currentPreprint &&
      (isArxivOrgSource candidate != isArxivOrgSource current) then
    isArxivOrgSource candidate
  else
    let venueA := publishedVenuePriority candidate
    let venueB := publishedVenuePriority current
    if venueA ≠ venueB then natGtB venueA venueB
    else
      let citeA := candidate.cited_by_count
      let citeB := current.cited_by_count
      if citeA ≠ citeB then natGtB citeA citeB
      else
        let dateA := candidate.publication_date
        let dateB := current.publication_date
        if dateA ≠ dateB then strGtB dateA dateB
        else strGtB candidate.id current.id

/-- Lookup in an insertion-ordered association list (JavaScript
`Map.prototype.get` / object property read). -/
def jsMapGet {α : Type} : List (String × α) → String → Option α
  | [], _ => none
  | (k, v) :: rest, key => if k = key then some v else jsMapGet rest key

/-- Update in an insertion-ordered association list (JavaScript
`Map.prototype.set` / object property write): overwrites in place,
otherwise appends. -/
def jsMapSet {α : Type} : List (String × α) → String → α → List (String × α)
  | [], key, v => [(key, v)]
  | (k, w) :: rest, key, v =>
    if k = key then (k, v) :: rest else (k, w) :: jsMapSet rest key v

/-- One step of the `dedupeWorksByTitle` fold (run.mjs:583-593): works
whose title normalizes to the empty key are stored under a synthetic
per-id key; otherwise the stored work for the title key is replaced when
the new work is a better candidate. -/
def dedupeStep (m : List (String × Work)) (w : Work) : List (String × Work) :=
  let key := normalizeTitle w.title
  if key = "" then jsMapSet m ("__id__" ++ w.id) w
  else
    match jsMapGet m key with
    | none => jsMapSet m key w
    | some existing =>
      if isBetterWorkCandidate w existing then jsMapSet m key w else m

/-- Embeds `dedupeWorksByTitle` (run.mjs:581-595): fold the works through
the by-title map and return the values in insertion order. -/
def dedupeWorksByTitle (works : List Work) : List Work :=
  (works.foldl dedupeStep []).map (fun p => p.2)

/-- Embeds `clamp01` (run.mjs:828-834).  The argument is the already
coerced `Number(value)`: `none` models a non-finite result (`NaN` or
`±Infinity`), for which the fallback is returned. -/
def clamp01 (value : Option ℚ) (fallback : ℚ) : ℚ :=
  match value with
  | none => fallback
  | some num => if num < 0 then 0 else if num > 1 then 1 else num

/-- A raw JSON object returned by the AI backend, with each field as the
source reads it: `is_interesting` is the pre-coerced
`Boolean(raw?.is_interesting)`; the score fields are the coerced
`Number(...)` (`none` = non-finite); a `some` on the remaining fields
means the field passed its `typeof ... === "string"` / `Array.isArray`
check. -/
structure Raw where
  is_interesting : Bool
  relevance_score : Option ℚ
  confidence : Option ℚ
  reason : Option String
  evidence : Option (List String)
  tldr : Option String
  research_directions : Option (List String)
deriving DecidableEq, Repr

/-- Stage-1 filter result (shape of `normalizePaperFilter`). -/
structure PaperFilter where
  is_interesting : Bool
  relevance_score : ℚ
  confidence : ℚ
  reason : String
deriving DecidableEq, Repr

/-- Stage-2 extraction result (shape of `normalizePaperExtraction`). -/
structure PaperExtraction where
  reason : String
  evidence : List String
  tldr : String
  research_directions : List String
deriving DecidableEq, Repr

/-- Embeds `normalizePaperFilter` (run.mjs:836-843). -/
def normalizePaperFilter (raw : Raw) : PaperFilter :=
  { is_interesting := raw.is_interesting
    relevance_score := clamp01 raw.relevance_score 0
    confidence := clamp01 raw.confidence 0
    reason := raw.reason.getD "" }

/-- Embeds `normalizePaperExtraction` (run.mjs:845-858): list fields are
truncated after a `filter(Boolean)` (the empty string being the falsy
string), `tldr` is trimmed. -/
def normalizePaperExtraction (raw : Raw) : PaperExtraction :=
  let directions :=
    match raw.research_directions with
    | some l => (l.filter (fun s => s ≠ "")).take 10
    | none => []
  let evidence :=
    match raw.evidence with
    | some l => (l.filter (fun s => s ≠ "")).take 3
    | none => []
  let tldr :=
    match raw.tldr with
    | some s => String.mk (trimChars s.toList)
    | none => ""
  { reason := raw.reason.getD ""
    evidence := evidence
    tldr := tldr
    research_directions := directions }

/-- The spread `{ ...stage1, evidence: [], tldr: "", research_directions: [] }`
(run.mjs:964-969). -/
def analysisOfFilterOnly (stage1 : PaperFilter) : Analysis :=
  { is_interesting := stage1.is_interesting
    relevance_score := stage1.relevance_score
    confidence := stage1.confidence
    reason := stage1.reason
    evidence := []
    tldr := ""
    research_directions := [] }

/-- The spread `{ ...stage1, ...stage2 }` (run.mjs:981-984); note that
`stage2.reason` overwrites `stage1.reason`. -/
def analysisOfStages (stage1 : PaperFilter) (stage2 : PaperExtraction) : Analysis :=
  { is_interesting := stage1.is_interesting
    relevance_score := stage1.relevance_score
    confidence := stage1.confidence
    reason := stage2.reason
    evidence := stage2.evidence
    tldr := stage2.tldr
    research_directions := stage2.research_directions }

/-- The deterministic analysis synthesized under `--skip-ai`
(run.mjs:927-935). -/
def skippedAnalysis : Analysis :=
  { is_interesting := false
    relevance_score := 0
    confidence := 0
    reason := "AI skipped by --skip-ai"
    evidence := []
    tldr := ""
    research_directions := [] }

/-- A researcher seed record, with the fields `analyzePaper` reads. -/
structure Researcher where
  name : String
  openalex_author_id : String
  orcid : String
deriving DecidableEq, Repr

/-- The run flags `analyzePaper` reads from `args`. -/
structure Args where
  fullRefresh : Bool
  skipAi : Bool
deriving DecidableEq, Repr

/-- True when the pattern list occurs at the head of the list. -/
def listStartsWith : List Char → List Char → Bool
  | [], _ => true
  | _ :: _, [] => false
  | p :: ps, c :: cs => p = c && listStartsWith ps cs

/-- The last `/`-separated segment, modelling `clean.split("/").pop()`. -/
def lastSlashSegment (acc : List Char) : List Char → List Char
  | [] => acc
  | c :: rest => if c = '/' then lastSlashSegment [] rest else lastSlashSegment (acc ++ [c]) rest

/-- Embeds `normalizeAuthorId` (run.mjs:49-57); the `throw` on a falsy id
becomes an `Except.error`. -/
def normalizeAuthorId (rawId : String) : Except String String :=
  if rawId = "" then .error "openalex_author_id is required"
  else
    let clean := String.mk (trimChars rawId.toList)
    if listStartsWith "https://openalex.org/".toList clean.toList then
      .ok (jsToUpper (String.mk (lastSlashSegment [] clean.toList)))
    else if listStartsWith ['A'] (jsToUpper clean).toList then .ok (jsToUpper clean)
    else .ok ("A" ++ clean)

/-- Digit or `X`/`x`, the character class `[\dX]` under the `i` flag. -/
def isOrcidCheckChar (c : Char) : Bool :=
  c.isDigit || c = 'X' || c = 'x'

/-- Take `n` leading characters all satisfying `p`, returning them and the
remainder, or `none` when fewer than `n` such characters lead the list. -/
def grabRun (p : Char → Bool) : Nat → List Char → Option (List Char × List Char)
  | 0, l => some ([], l)
  | _ + 1, [] => none
  | n + 1, c :: rest =>
    if p c then (grabRun p n rest).map (fun q => (c :: q.1, q.2)) else none

/-- Match the regex `\d{4}-\d{4}-\d{4}-[\dX]{4}` (with `i`) at the head of
the list, returning the matched characters. -/
def orcidDashedAt (l : List Char) : Option (List Char) :=
  match grabRun Char.isDigit 4 l with
  | none => none
  | some (g1, r1) =>
    match r1 with
    | '-' :: r1a =>
      match grabRun Char.isDigit 4 r1a with
      | none => none
      | some (g2, r2) =>
        match r2 with
        | '-' :: r2a =>
          match grabRun Char.isDigit 4 r2a with
          | none => none
          | some (g3, r3) =>
            match r3 with
            | '-' :: r3a =>
              match grabRun isOrcidCheckChar 4 r3a with
              | none => none
              | some (g4, _) => some (g1 ++ ['-'] ++ g2 ++ ['-'] ++ g3 ++ ['-'] ++ g4)
            | _ => none
        | _ => none
    | _ => none

/-- Match the regex `\d{15}[\dX]` (with `i`) at the head of the list. -/
def orcidCompactAt (l : List Char) : Option (List Char) :=
  match grabRun Char.isDigit 15 l with
  | none => none
  | some (g, r) =>
    match r with
    | c :: _ => if isOrcidCheckChar c then some (g ++ [c]) else none
    | [] => none

/-- Leftmost match of a head-matcher anywhere in the list, modelling
`String.prototype.match` search. -/
def scanFirstMatch (m : List Char → Option (List Char)) : List Char → Option (List Char)
  | [] => m []
  | c :: rest =>
    match m (c :: rest) with
    | some found => some found
    | none => scanFirstMatch m rest

/-- Embeds `normalizeOrcid` (run.mjs:59-70): find an ORCID pattern, strip
dashes, uppercase, re-format with dashes and prefix the ORCID URL; an
unmatchable input yields `""`. -/
def normalizeOrcid (rawOrcid : String) : String :=
  let raw := String.mk (trimChars rawOrcid.toList)
  if raw = "" then ""
  else
    match
      (scanFirstMatch orcidDashedAt raw.toList).orElse
        (fun _ => scanFirstMatch orcidCompactAt raw.toList) with
    | none => ""
    | some m =>
      let compact := (m.filter (fun c => c ≠ '-')).map Char.toUpper
      if compact.length ≠ 16 then ""
      else
        "https://orcid.org/" ++ String.mk (compact.take 4) ++ "-" ++
          String.mk ((compact.drop 4).take 4) ++ "-" ++
          String.mk ((compact.drop 8).take 4) ++ "-" ++ String.mk (compact.drop 12)

/-- A cache entry as written by `analyzePaper` (run.mjs:936-944, 987-995). -/
structure CacheEntry where
  paper_id : String
  title : String
  researcher_name : String
  researcher_openalex_author_id : String
  researcher_orcid : String
  updated_at : String
  analysis : Analysis
deriving DecidableEq, Repr

/-- A stored cache value: either a modern entry with an `analysis` object,
or a legacy value that is itself the analysis (run.mjs:920-923). -/
inductive CacheVal where
  | entry (e : CacheEntry)
  | legacy (a : Analysis)
deriving DecidableEq, Repr

/-- The analysis a cache hit returns: `cachedEntry.analysis` when it is an
object, else the cached value itself (run.mjs:920-923). -/
def cacheValAnalysis : CacheVal → Analysis
  | .entry e => e.analysis
  | .legacy a => a

/-- The per-researcher cache mapping, fingerprint key to value. -/
abbrev CacheMap : Type := List (String × CacheVal)

/-- Embeds `paperCacheKey` (run.mjs:746-749); the sha-256 digest is
modelled by the fingerprint string itself. -/
def paperCacheKey (work : Work) : String :=
  work.id ++ "|" ++ work.title ++ "|" ++ work.abstract

/-- Build the cache entry object literal written by `analyzePaper`; the
evaluation of `normalizeAuthorId` inside the literal can throw, in which
case nothing is written. -/
def mkCacheEntry (researcher : Researcher) (work : Work) (now : String)
    (analysis : Analysis) : Except String CacheEntry :=
  match normalizeAuthorId researcher.openalex_author_id with
  | .error e => .error e
  | .ok authorId =>
    .ok { paper_id := work.id
          title := work.title
          researcher_name := researcher.name
          researcher_openalex_author_id := authorId
          researcher_orcid := normalizeOrcid researcher.orcid
          updated_at := now
          analysis := analysis }

/-- One retry attempt (run.mjs:954-996): the stage-1 filter call, then,
only when flagged interesting, the stage-2 extraction call.  The backend
is a call-indexed oracle; the result carries the number of calls this
attempt consumed. -/
def runAttempt (backend : Nat → Except String Raw) (ci : Nat) :
    Except String Analysis × Nat :=
  match backend ci with
  | .error e => (.error e, 1)
  | .ok raw1 =>
    let stage1 := normalizePaperFilter raw1
    if stage1.is_interesting then
      match backend (ci + 1) with
      | .error e => (.error e, 2)
      | .ok raw2 => (.ok (analysisOfStages stage1 (normalizePaperExtraction raw2)), 2)
    else (.ok (analysisOfFilterOnly stage1), 1)

/-- The retry loop of `analyzePaper` (run.mjs:949-1003): up to `remaining`
further attempts, `attempt` attempts already made, `ci` backend calls
already made, the backoff sleeps issued so far, and the last error.
Returns the outcome, total attempts, total calls, and the sleep log. -/
def attemptLoop (backend : Nat → Except String Raw) :
    Nat → Nat → Nat → List Nat → String → Except String Analysis × Nat × Nat × List Nat
  | 0, attempt, ci, sleeps, lastErr => (.error lastErr, attempt, ci, sleeps)
  | remaining + 1, attempt, ci, sleeps, lastErr =>
    let a := attempt + 1
    match runAttempt backend ci with
    | (.ok analysis, used) => (.ok analysis, a, ci + used, sleeps)
    | (.error e, used) =>
      let _ := lastErr
      attemptLoop backend remaining a (ci + used) (sleeps ++ [500 * a]) e

/-- The observable outcome of one `analyzePaper` call: the returned
`{ analysis, fromCache }` (or the propagated error), the number of
attempts made, the number of AI backend calls made (`callQwenChat`
invocations), the backoff sleeps issued, and the cache mapping after the
call. -/
structure AnalyzeOut where
  result : Except String (Analysis × Bool)
  attempts : Nat
  calls : Nat
  sleeps : List Nat
  cache : CacheMap

/-- The un-cached tail of `analyzePaper` (run.mjs:926-1003): the skip-AI
branch, else the retry loop; a successful or skipped analysis is written
to the cache under the fingerprint key before returning. -/
def analyzePaperFresh (researcher : Researcher) (work : Work) (args : Args)
    (cache : CacheMap) (backend : Nat → Except String Raw) (now : String) : AnalyzeOut :=
  let cacheKey := paperCacheKey work
  if args.skipAi then
    match mkCacheEntry researcher work now skippedAnalysis with
    | .error e => ⟨.error e, 0, 0, [], cache⟩
    | .ok entry =>
      ⟨.ok (skippedAnalysis, false), 0, 0, [], jsMapSet cache cacheKey (.entry entry)⟩
  else
    match attemptLoop backend 3 0 0 [] "" with
    | (.ok analysis, attempts, calls, sleeps) =>
      match mkCacheEntry researcher work now analysis with
      | .error e => ⟨.error e, attempts, calls, sleeps, cache⟩
      | .ok entry =>
        ⟨.ok (analysis, false), attempts, calls, sleeps,
          jsMapSet cache cacheKey (.entry entry)⟩
    | (.error e, attempts, calls, sleeps) => ⟨.error e, attempts, calls, sleeps, cache⟩

/-- Embeds `analyzePaper` (run.mjs:916-1004): a cached entry under the
fingerprint short-circuits unless `--full-refresh` is set. -/
def analyzePaper (researcher : Researcher) (work : Work) (args : Args)
    (cache : CacheMap) (backend : Nat → Except String Raw) (now : String) : AnalyzeOut :=
  let cacheKey := paperCacheKey work
  match jsMapGet cache cacheKey with
  | some cachedEntry =>
    if args.fullRefresh then analyzePaperFresh researcher work args cache backend now
    else ⟨.ok (cacheValAnalysis cachedEntry, true), 0, 0, [], cache⟩
  | none => analyzePaperFresh researcher work args cache backend now

/-- The accumulated state of the `fetchAuthorWorks` paging loop: the raw
mapped works in fetch order and the running by-title tracker map
(run.mjs:601-602). -/
structure FetchState where
  works : List Work
  dedupedByTitle : List (String × Work)
deriving Repr

/-- The membership test `knownIds && knownIds.has(work.id)`
(run.mjs:618). -/
def knownHas (knownIds : Option (List String)) (id : String) : Bool :=
  match knownIds with
  | some ids => decide (id ∈ ids)
  | none => false

/-- One update of the by-title tracker of `fetchAuthorWorks`
(run.mjs:721-727): works with an empty normalized title are not
tracked. -/
def trackStep (m : List (String × Work)) (w : Work) : List (String × Work) :=
  let titleKey := normalizeTitle w.title
  if titleKey = "" then m
  else
    match jsMapGet m titleKey with
    | none => jsMapSet m titleKey w
    | some existing =>
      if isBetterWorkCandidate w existing then jsMapSet m titleKey w else m

/-- The guard `maxPapers && dedupedByTitle.size >= maxPapers`
(run.mjs:729); a `0` count is falsy.  (Only non-negative integral counts
are modelled.) -/
def maxReached (maxPapers : Option Nat) (size : Nat) : Bool :=
  match maxPapers with
  | some m => decide (m ≠ 0) && decide (m ≤ size)
  | none => false

/-- The inner per-page loop of `fetchAuthorWorks` (run.mjs:617-732):
known works are counted and skipped, others are appended and tracked;
reaching the count bound returns the deduplicated works truncated to the
bound (`Sum.inr`), otherwise the updated state and the page's known
count are handed back (`Sum.inl`). -/
def processPage (maxPapers : Option Nat) (knownIds : Option (List String)) :
    FetchState → Nat → List Work → FetchState × Nat ⊕ List Work
  | st, pageKnown, [] => .inl (st, pageKnown)
  | st, pageKnown, w :: rest =>
    if knownHas knownIds w.id then
      processPage maxPapers knownIds st (pageKnown + 1) rest
    else
      let st' : FetchState := ⟨st.works ++ [w], trackStep st.dedupedByTitle w⟩
      if maxReached maxPapers st'.dedupedByTitle.length then
        .inr ((dedupeWorksByTitle st'.works).take (maxPapers.getD 0))
      else processPage maxPapers knownIds st' pageKnown rest

/-- The outer paging loop of `fetchAuthorWorks` (run.mjs:607-743): the
cursor sequence is modelled as the list of result pages; a fully-known
non-empty page stops paging in incremental mode; the exhausted loop
returns the deduplicated works without truncation. -/
def fetchPagesLoop (maxPapers : Option Nat) (knownIds : Option (List String)) :
    FetchState → List (List Work) → List Work
  | st, [] => dedupeWorksByTitle st.works
  | st, page :: restPages =>
    match processPage maxPapers knownIds st 0 page with
    | .inr early => early
    | .inl (st', pageKnown) =>
      if knownIds.isSome && decide (0 < page.length) && decide (pageKnown = page.length) then
        dedupeWorksByTitle st'.works
      else fetchPagesLoop maxPapers knownIds st' restPages

/-- Embeds `fetchAuthorWorks` (run.mjs:597-744).  The pages hold the
already-mapped `Work` records (the raw-payload field mapping of
run.mjs:640-718 is the input model); the control flow — known-id
skipping, by-title tracking, the count bound and the stop conditions —
follows the source. -/
def fetchAuthorWorks (pages : List (List Work)) (maxPapers : Option Nat)
    (knownWorkIds : Option (List String)) (fullRefresh : Bool) : List Work :=
  let knownIds := if fullRefresh then none else knownWorkIds
  fetchPagesLoop maxPapers knownIds ⟨[], []⟩ pages

/-- One weighted research direction of a topic summary. -/
structure DirectionWeight where
  name : String
  weight : ℚ
deriving DecidableEq, Repr

/-- One representative paper of a topic summary. -/
structure RepPaper where
  title : String
  why : String
deriving DecidableEq, Repr

/-- A researcher's topic summary (run.mjs:882-886, 1312-1329). -/
structure TopicSummary where
  top_research_directions : List DirectionWeight
  trend_summary : String
  representative_papers : List RepPaper
deriving DecidableEq, Repr

/-- Stable insertion of `x` into a list sorted descending by `f`,
placing `x` before later-arriving equals. -/
def insertByDesc {α : Type} (f : α → Nat) (x : α) : List α → List α
  | [] => [x]
  | y :: ys => if f y ≤ f x then x :: y :: ys else y :: insertByDesc f x ys

/-- Stable descending sort by a `Nat` measure, modelling the JavaScript
stable `sort((a, b) => f(b) - f(a))`. -/
def sortByDesc {α : Type} (f : α → Nat) : List α → List α
  | [] => []
  | x :: xs => insertByDesc f x (sortByDesc f xs)

/-- JavaScript `Number(q.toFixed(3))` on a non-negative number, modelled
as half-up rounding to three decimals on exact rationals. -/
def toFixed3 (q : ℚ) : ℚ :=
  ((round (q * 1000) : ℤ) : ℚ) / 1000

/-- The direction-count accumulation of `fallbackSummary`
(run.mjs:862-868) for one interesting analysis. -/
def bumpDirections (m : List (String × Nat)) (a : Analysis) : List (String × Nat) :=
  a.research_directions.foldl (fun m' d => jsMapSet m' d ((jsMapGet m' d).getD 0 + 1)) m

/-- Embeds `fallbackSummary` (run.mjs:860-887): direction frequencies over
interesting works, the top eight by count with `toFixed(3)`-rounded
weights, and the eight most-cited interesting works as representatives. -/
def fallbackSummary (analyzedWorks : List Work) : TopicSummary :=
  let directionCounts := analyzedWorks.foldl (fun m w =>
    match w.analysis with
    | some a => if a.is_interesting then bumpDirections m a else m
    | none => m) []
  let totalRaw : Nat := (directionCounts.map (fun p => p.2)).foldl (fun a b => a + b) 0
  let total := if totalRaw = 0 then 1 else totalRaw
  let top := ((sortByDesc (fun p => p.2) directionCounts).take 8).map
    (fun p => { name := p.1, weight := toFixed3 ((p.2 : ℚ) / (total : ℚ)) : DirectionWeight })
  let representatives := ((sortByDesc (fun w => w.cited_by_count)
      (analyzedWorks.filter (fun w =>
        match w.analysis with
        | some a => a.is_interesting
        | none => false))).take 8).map
    (fun w =>
      { title := w.title
        why := "Highly cited (" ++ toString w.cited_by_count ++ ")." : RepPaper })
  { top_research_directions := top
    trend_summary := "AI summary unavailable. Generated by frequency fallback."
    representative_papers := representatives }

/-- A raw direction object in the AI summary response; `name` is the
pre-coerced `String(d?.name || "")`, `weight` the coerced
`Number(d?.weight)`. -/
structure RawDirection where
  name : String
  weight : Option ℚ
deriving DecidableEq, Repr

/-- A raw representative-paper object in the AI summary response. -/
structure RawRepPaper where
  title : String
  why : String
deriving DecidableEq, Repr

/-- A raw AI summary response; a `some` on each field means it passed its
`Array.isArray` / `typeof === "string"` check. -/
structure RawSummary where
  top_research_directions : Option (List RawDirection)
  trend_summary : Option String
  representative_papers : Option (List RawRepPaper)
deriving DecidableEq, Repr

/-- The field-wise normalization of a successful AI summary response over
the current summary (run.mjs:1312-1329). -/
def normalizeSummaryRaw (raw : RawSummary) (base : TopicSummary) : TopicSummary :=
  { top_research_directions :=
      match raw.top_research_directions with
      | some l => (l.take 8).map (fun d => { name := d.name, weight := clamp01 d.weight 0 })
      | none => base.top_research_directions
    trend_summary :=
      match raw.trend_summary with
      | some s => s
      | none => base.trend_summary
    representative_papers :=
      match raw.representative_papers with
      | some l => (l.take 8).map (fun p => { title := p.title, why := p.why })
      | none => base.representative_papers }

/-- The outcome of the topic-summary step for one researcher: the summary
put on the profile and whether the AI summary call (`callQwenChat`) was
made. -/
structure SummaryDecision where
  topic_summary : TopicSummary
  ai_summary_called : Bool
deriving DecidableEq, Repr

/-- Embeds the topic-summary step of `run` (run.mjs:1297-1333): the
summary is recomputed only on a full refresh, when new works were
analyzed, or when no prior summary exists; otherwise the previous
summary is carried over.  When recomputing and not skipping AI, the
backend is consulted (`aiResp` is that call's outcome) and a failure
falls back to the frequency summary. -/
def computeTopicSummary (fullRefresh skipAi : Bool) (analyzedNewWorks : List Work)
    (dedupedMergedWorks : List Work) (prevSummary : Option TopicSummary)
    (aiResp : Except String RawSummary) : SummaryDecision :=
  let shouldRecomputeSummary :=
    fullRefresh || decide (0 < analyzedNewWorks.length) || prevSummary.isNone
  let topicSummary :=
    if shouldRecomputeSummary then fallbackSummary dedupedMergedWorks
    else
      match prevSummary with
      | some s => s
      | none => fallbackSummary dedupedMergedWorks
  if !skipAi && shouldRecomputeSummary then
    match aiResp with
    | .ok raw => ⟨normalizeSummaryRaw raw topicSummary, true⟩
    | .error _ => ⟨topicSummary, true⟩
  else ⟨topicSummary, false⟩

/-- Modelled from the spec (§4.4 tie-break policy, rule 3): the venue-type
preference put into words as "journal > conference > book series >
(other) > repository", as a rank on its own scale. -/
def specVenueTypeRank (w : Work) : Nat :=
  let sourceType := jsToLower w.source_type
  if sourceType = "journal" then 4
  else if sourceType = "conference" then 3
  else if sourceType = "book_series" then 2
  else if sourceType = "repository" then 0
  else 1

/-- Modelled from the spec (§4.4 tie-break policy): the six rules applied
in order until a difference is found — (1) non-preprint over preprint,
(2) among preprints the canonical preprint repository (arxiv.org) over
any other source, (3) higher venue-type rank, (4) higher citation count,
(5) more recent (lexicographically larger) publication date, (6)
lexicographically larger external id. -/
def specIsBetterWorkCandidate (candidate current : Work) : Bool :=
  if isPreprintWork candidate ≠ isPreprintWork current then !(isPreprintWork candidate)
  else if isPreprintWork candidate && isPreprintWork current &&
      (isArxivOrgSource candidate != isArxivOrgSource current) then
    isArxivOrgSource candidate
  else if specVenueTypeRank candidate ≠ specVenueTypeRank current then
    natGtB (specVenueTypeRank candidate) (specVenueTypeRank current)
  else if candidate.cited_by_count ≠ current.cited_by_count then
    natGtB candidate.cited_by_count current.cited_by_count
  else if candidate.publication_date ≠ current.publication_date then
    strGtB candidate.publication_date current.publication_date
  else strGtB candidate.id current.id

/-- One lexicographic layer of a strictly-greater comparison on a pair:
greater on the first component, or equal there and greater on the rest. -/
def gtLayer {α β : Type} [DecidableEq α] (gtA : α → α → Bool) (g : β → β → Bool)
    (x y : α × β) : Bool :=
  gtA x.1 y.1 || (decide (x.1 = y.1) && g x.2 y.2)

/-- First tie-break key component: non-preprints rank above preprints. -/
def workKeyQ1 (w : Work) : Nat :=
  if isPreprintWork w then 0 else 1

/-- Second tie-break key component: among preprints, arxiv.org sources
rank above other sources; constant on non-preprints (the source skips
the arxiv comparison unless both works are preprints). -/
def workKeyQ2 (w : Work) : Nat :=
  if isPreprintWork w then (if isArxivOrgSource w then 1 else 0) else 0

/-- The six-component tie-break key of a work. -/
abbrev WorkKey : Type := Nat × Nat × Nat × Nat × String × String

/-- The tie-break key read off a work: preprint class, arxiv class, venue
priority, citation count, publication date, external id. -/
def workKey (w : Work) : WorkKey :=
  (workKeyQ1 w, workKeyQ2 w, publishedVenuePriority w, w.cited_by_count,
    w.publication_date, w.id)

/-- Strict lexicographic strictly-greater on the six-component key. -/
def keyGtB : WorkKey → WorkKey → Bool :=
  gtLayer natGtB (gtLayer natGtB (gtLayer natGtB (gtLayer natGtB (gtLayer strGtB strGtB))))

/-- A strict total order presented as a boolean strictly-greater
relation. -/
structure StrictTotalGt {α : Type} (gt : α → α → Bool) : Prop where
  trans : ∀ a b c, gt a b = true → gt b c = true → gt a c = true
  asymm : ∀ a b, gt a b = true → gt b a = false
  total : ∀ a b, a ≠ b → gt a b = true ∨ gt b a = true

/-- The running "best so far" selection that `dedupeWorksByTitle` performs
for the works sharing one title key. -/
def foldWin (cur : Work) (l : List Work) : Work :=
  l.foldl (fun c w => if isBetterWorkCandidate w c then w else c) cur

/-! ### Association-list map lemmas -/

theorem jsMapGet_set_self {α : Type} (m : List (String × α)) (k : String) (v : α) :
    jsMapGet (jsMapSet m k v) k = some v := by
  induction m with
  | nil => simp [jsMapSet, jsMapGet]
  | cons p rest ih =>
    obtain ⟨k', v'⟩ := p
    by_cases h : k' = k
    · simp [jsMapSet, jsMapGet, h]
    · simp [jsMapSet, jsMapGet, h, ih]

/-! ### Structural lemmas about `analyzePaper` -/

theorem normalizeAuthorId_ok (rawId : String) (h : rawId ≠ "") :
    ∃ s, normalizeAuthorId rawId = .ok s := by
  unfold normalizeAuthorId
  simp only [h, if_false]
  split_ifs <;> exact ⟨_, rfl⟩

theorem mkCacheEntry_ok (r : Researcher) (w : Work) (now : String) (a : Analysis)
    (h : r.openalex_author_id ≠ "") :
    ∃ e : CacheEntry, mkCacheEntry r w now a = .ok e ∧ e.analysis = a := by
  obtain ⟨s, hs⟩ := normalizeAuthorId_ok _ h
  unfold mkCacheEntry
  rw [hs]
  exact ⟨_, rfl, rfl⟩

theorem mkCacheEntry_analysis (r : Researcher) (w : Work) (now : String) (a : Analysis)
    (entry : CacheEntry) (h : mkCacheEntry r w now a = .ok entry) :
    entry.analysis = a := by
  unfold mkCacheEntry at h
  cases hn : normalizeAuthorId r.openalex_author_id
  · rw [hn] at h
    cases h
  · rw [hn] at h
    cases h
    rfl

theorem analyzePaper_hit (r : Researcher) (w : Work) (args : Args) (c : CacheMap)
    (b : Nat → Except String Raw) (n : String) (v : CacheVal)
    (hlook : jsMapGet c (paperCacheKey w) = some v) (hfr : args.fullRefresh = false) :
    analyzePaper r w args c b n = ⟨.ok (cacheValAnalysis v, true), 0, 0, [], c⟩ := by
  simp [analyzePaper, hlook, hfr]

theorem analyzePaper_eq_fresh (r : Researcher) (w : Work) (args : Args) (c : CacheMap)
    (b : Nat → Except String Raw) (n : String)
    (h : jsMapGet c (paperCacheKey w) = none ∨ args.fullRefresh = true) :
    analyzePaper r w args c b n = analyzePaperFresh r w args c b n := by
  rcases h with h | h
  · simp [analyzePaper, h]
  · cases hl : jsMapGet c (paperCacheKey w) <;> simp [analyzePaper, h, hl]

theorem analyzePaperFresh_error_cache (r : Researcher) (w : Work) (args : Args)
    (c : CacheMap) (b : Nat → Except String Raw) (n : String) (e : String)
    (h : (analyzePaperFresh r w args c b n).result = .error e) :
    (analyzePaperFresh r w args c b n).cache = c := by
  unfold analyzePaperFresh at h ⊢
  by_cases hs : args.skipAi
  · simp only [hs, if_true] at h ⊢
    cases hmk : mkCacheEntry r w n skippedAnalysis <;> simp [hmk] at h ⊢
  · simp only [hs, if_false, Bool.false_eq_true] at h ⊢
    rcases hal : attemptLoop b 3 0 0 [] "" with ⟨res, attempts, calls, sleeps⟩
    cases res with
    | ok a =>
      simp only [hal] at h ⊢
      cases hmk : mkCacheEntry r w n a <;> simp [hmk] at h ⊢
    | error e2 => simp [hal]

theorem analyzePaperFresh_ok (r : Researcher) (w : Work) (args : Args)
    (c : CacheMap) (b : Nat → Except String Raw) (n : String) (a : Analysis) (fc : Bool)
    (h : (analyzePaperFresh r w args c b n).result = .ok (a, fc)) :
    fc = false ∧ ∃ e : CacheEntry, e.analysis = a ∧
      (analyzePaperFresh r w args c b n).cache = jsMapSet c (paperCacheKey w) (.entry e) := by
  unfold analyzePaperFresh at h ⊢
  by_cases hs : args.skipAi
  · simp only [hs, if_true] at h ⊢
    cases hmk : mkCacheEntry r w n skippedAnalysis with
    | error e2 => simp [hmk] at h
    | ok entry =>
      simp only [hmk] at h ⊢
      simp at h
      exact ⟨h.2, entry,
        by rw [mkCacheEntry_analysis r w n skippedAnalysis entry hmk]; exact h.1, rfl⟩
  · simp only [hs, if_false, Bool.false_eq_true] at h ⊢
    rcases hal : attemptLoop b 3 0 0 [] "" with ⟨res, attempts, calls, sleeps⟩
    cases res with
    | ok a2 =>
      simp only [hal] at h ⊢
      cases hmk : mkCacheEntry r w n a2 with
      | error e2 => simp [hmk] at h
      | ok entry =>
        simp only [hmk] at h ⊢
        simp at h
        exact ⟨h.2, entry,
          by rw [mkCacheEntry_analysis r w n a2 entry hmk]; exact h.1, rfl⟩
    | error e2 => simp [hal] at h

theorem analyzePaper_ok_lookup (r : Researcher) (w : Work) (args : Args)
    (c : CacheMap) (b : Nat → Except String Raw) (n : String) (a : Analysis) (fc : Bool)
    (h : (analyzePaper r w args c b n).result = .ok (a, fc)) :
    ∃ v : CacheVal, jsMapGet (analyzePaper r w args c b n).cache (paperCacheKey w) = some v ∧
      cacheValAnalysis v = a := by
  by_cases hfresh : jsMapGet c (paperCacheKey w) = none ∨ args.fullRefresh = true
  · rw [analyzePaper_eq_fresh r w args c b n hfresh] at h ⊢
    obtain ⟨-, e, hea, hc⟩ := analyzePaperFresh_ok r w args c b n a fc h
    exact ⟨.entry e, by rw [hc, jsMapGet_set_self], hea⟩
  · push_neg at hfresh
    obtain ⟨hl, hfr⟩ := hfresh
    cases hlv : jsMapGet c (paperCacheKey w) with
    | none => exact absurd hlv hl
    | some v =>
      have hfr' : args.fullRefresh = false := by
        cases hfr2 : args.fullRefresh
        · rfl
        · exact absurd hfr2 hfr
      rw [analyzePaper_hit r w args c b n v hlv hfr'] at h ⊢
      simp at h
      exact ⟨v, hlv, h.1⟩

theorem analyzePaperFresh_skip_calls (r : Researcher) (w : Work) (args : Args)
    (c : CacheMap) (b : Nat → Except String Raw) (n : String)
    (hskip : args.skipAi = true) :
    (analyzePaperFresh r w args c b n).calls = 0 := by
  unfold analyzePaperFresh
  simp only [hskip, if_true]
  cases mkCacheEntry r w n skippedAnalysis <;> rfl

theorem attemptLoop_three_fail (backend : Nat → Except String Raw) (errs : Nat → String)
    (hfail : ∀ k, backend k = .error (errs k)) :
    attemptLoop backend 3 0 0 [] "" = (.error (errs 2), 3, 3, [500, 1000, 1500]) := by
  have hra : ∀ ci, runAttempt backend ci = (.error (errs ci), 1) := by
    intro ci
    simp [runAttempt, hfail ci]
  simp [attemptLoop, hra]

/-- C3: when the work's content fingerprint already has a cache entry and
the full-refresh flag is off, `analyzePaper` returns the cached analysis
unchanged, makes no AI backend call, reports a cache hit and leaves the
cache unchanged; moreover any analysis a run returns is present in that
run's resulting cache, so a later non-full-refresh run over the same work
returns the same analysis as a hit with zero backend calls — the analysis
is computed at most once across runs for a fixed fingerprint. -/
theorem analyzePaper_cacheHit_noCall
    (researcher : Researcher) (work : Work) (args : Args) (cache : CacheMap)
    (backend : Nat → Except String Raw) (now : String) (v : CacheVal)
    (hlook : jsMapGet cache (paperCacheKey work) = some v)
    (hfr : args.fullRefresh = false) :
    analyzePaper researcher work args cache backend now
      = ⟨.ok (cacheValAnalysis v, true), 0, 0, [], cache⟩ ∧
    ∀ (r1 : Researcher) (w1 : Work) (args1 : Args) (c1 : CacheMap)
      (b1 : Nat → Except String Raw) (n1 : String) (a : Analysis) (fc : Bool)
      (r2 : Researcher) (args2 : Args) (b2 : Nat → Except String Raw) (n2 : String),
      (analyzePaper r1 w1 args1 c1 b1 n1).result = .ok (a, fc) →
      args2.fullRefresh = false →
      analyzePaper r2 w1 args2 (analyzePaper r1 w1 args1 c1 b1 n1).cache b2 n2
        = ⟨.ok (a, true), 0, 0, [], (analyzePaper r1 w1 args1 c1 b1 n1).cache⟩ := by
  constructor
  · exact analyzePaper_hit researcher work args cache backend now v hlook hfr
  · intro r1 w1 args1 c1 b1 n1 a fc r2 args2 b2 n2 h1 hfr2
    obtain ⟨v', hv', hva⟩ := analyzePaper_ok_lookup r1 w1 args1 c1 b1 n1 a fc h1
    rw [analyzePaper_hit r2 w1 args2 _ b2 n2 v' hv' hfr2, hva]

/-- Witness for C3 at a concrete cached work. -/
theorem analyzePaper_cacheHit_noCall_witness :
    analyzePaper ⟨"R", "A1", ""⟩ ⟨"W1", "t", "", "", "", "", 0, "", "abs", none⟩
        ⟨false, false⟩ [("W1|t|abs", .legacy skippedAnalysis)]
        (fun _ => .error "boom") "now"
      = ⟨.ok (skippedAnalysis, true), 0, 0, [],
          [("W1|t|abs", .legacy skippedAnalysis)]⟩ :=
  (analyzePaper_cacheHit_noCall ⟨"R", "A1", ""⟩
    ⟨"W1", "t", "", "", "", "", 0, "", "abs", none⟩ ⟨false, false⟩
    [("W1|t|abs", .legacy skippedAnalysis)] (fun _ => .error "boom") "now"
    (.legacy skippedAnalysis) rfl rfl).1

/-- C4: when the work is not served from cache, skip-AI mode is off and
every AI backend call fails, `analyzePaper` makes exactly 3 attempts
(3 failing calls), sleeps the linear backoff 500, 1000, 1500 ms after the
successive failed attempts, propagates the last error, and leaves the
cache unchanged. -/
theorem analyzePaper_retry_exhausts
    (researcher : Researcher) (work : Work) (args : Args) (cache : CacheMap)
    (backend : Nat → Except String Raw) (now : String) (errs : Nat → String)
    (hnc : jsMapGet cache (paperCacheKey work) = none ∨ args.fullRefresh = true)
    (hskip : args.skipAi = false)
    (hfail : ∀ k, backend k = .error (errs k)) :
    analyzePaper researcher work args cache backend now
      = ⟨.error (errs 2), 3, 3, [500, 1000, 1500], cache⟩ := by
  rw [analyzePaper_eq_fresh researcher work args cache backend now hnc]
  unfold analyzePaperFresh
  simp [hskip, attemptLoop_three_fail backend errs hfail]

/-- Witness for C4 at a concrete always-failing backend. -/
theorem analyzePaper_retry_exhausts_witness :
    analyzePaper ⟨"R", "A1", ""⟩ ⟨"W1", "t", "", "", "", "", 0, "", "abs", none⟩
        ⟨false, false⟩ [] (fun _ => .error "boom") "now"
      = ⟨.error "boom", 3, 3, [500, 1000, 1500], []⟩ :=
  analyzePaper_retry_exhausts ⟨"R", "A1", ""⟩
    ⟨"W1", "t", "", "", "", "", 0, "", "abs", none⟩ ⟨false, false⟩ []
    (fun _ => .error "boom") "now" (fun _ => "boom") (.inl rfl) rfl (fun _ => rfl)

/-- C10: when `analyzePaper` propagates an error, the researcher's cache
mapping is unchanged — no entry is created or modified under the work's
fingerprint, since entries are written only on a successful or skipped
analysis. -/
theorem analyzePaper_error_keeps_cache
    (r : Researcher) (w : Work) (args : Args) (c : CacheMap)
    (b : Nat → Except String Raw) (n : String) (e : String)
    (h : (analyzePaper r w args c b n).result = .error e) :
    (analyzePaper r w args c b n).cache = c := by
  by_cases hfresh : jsMapGet c (paperCacheKey w) = none ∨ args.fullRefresh = true
  · rw [analyzePaper_eq_fresh r w args c b n hfresh] at h ⊢
    exact analyzePaperFresh_error_cache r w args c b n e h
  · push_neg at hfresh
    obtain ⟨hl, hfr⟩ := hfresh
    cases hlv : jsMapGet c (paperCacheKey w) with
    | none => exact absurd hlv hl
    | some v =>
      have hfr' : args.fullRefresh = false := by
        cases h2 : args.fullRefresh
        · rfl
        · exact absurd h2 hfr
      rw [analyzePaper_hit r w args c b n v hlv hfr'] at h
      simp at h

/-- Witness for C10 at a concrete failing run. -/
theorem analyzePaper_error_keeps_cache_witness :
    (analyzePaper ⟨"R", "A1", ""⟩ ⟨"W1", "t", "", "", "", "", 0, "", "abs", none⟩
        ⟨false, false⟩ [] (fun _ => .error "boom") "now").result = .error "boom" ∧
    (analyzePaper ⟨"R", "A1", ""⟩ ⟨"W1", "t", "", "", "", "", 0, "", "abs", none⟩
        ⟨false, false⟩ [] (fun _ => .error "boom") "now").cache = [] :=
  ⟨rfl, analyzePaper_error_keeps_cache ⟨"R", "A1", ""⟩
    ⟨"W1", "t", "", "", "", "", 0, "", "abs", none⟩ ⟨false, false⟩ []
    (fun _ => .error "boom") "now" "boom" rfl⟩

/-- C8: in skip-AI mode `analyzePaper` makes zero AI backend calls for
every paper, and a paper with no cache entry under its fingerprint
receives the deterministic not-relevant analysis (not interesting,
relevance 0, confidence 0), which is stored in the cache under the
fingerprint. -/
theorem analyzePaper_skip_ai :
    (∀ (r : Researcher) (w : Work) (args : Args) (c : CacheMap)
       (b : Nat → Except String Raw) (n : String), args.skipAi = true →
       (analyzePaper r w args c b n).calls = 0) ∧
    (∀ (r : Researcher) (w : Work) (args : Args) (c : CacheMap)
       (b : Nat → Except String Raw) (n : String), args.skipAi = true →
       jsMapGet c (paperCacheKey w) = none →
       r.openalex_author_id ≠ "" →
       (analyzePaper r w args c b n).result = .ok (skippedAnalysis, false) ∧
       ∃ e : CacheEntry,
         jsMapGet (analyzePaper r w args c b n).cache (paperCacheKey w)
             = some (.entry e) ∧
         e.analysis = skippedAnalysis) ∧
    skippedAnalysis.is_interesting = false ∧
    skippedAnalysis.relevance_score = 0 ∧ skippedAnalysis.confidence = 0 := by
  refine ⟨?_, ?_, rfl, rfl, rfl⟩
  · intro r w args c b n hskip
    cases hl : jsMapGet c (paperCacheKey w) with
    | none =>
      rw [analyzePaper_eq_fresh r w args c b n (.inl hl)]
      exact analyzePaperFresh_skip_calls r w args c b n hskip
    | some v =>
      cases hfr : args.fullRefresh with
      | true =>
        rw [analyzePaper_eq_fresh r w args c b n (.inr hfr)]
        exact analyzePaperFresh_skip_calls r w args c b n hskip
      | false =>
        rw [analyzePaper_hit r w args c b n v hl hfr]
  · intro r w args c b n hskip hl hid
    rw [analyzePaper_eq_fresh r w args c b n (.inl hl)]
    obtain ⟨e, hmk, hea⟩ := mkCacheEntry_ok r w n skippedAnalysis hid
    unfold analyzePaperFresh
    simp only [hskip, if_true, hmk]
    exact ⟨trivial, e, jsMapGet_set_self c (paperCacheKey w) (.entry e), hea⟩

/-- Witness for C8 at a concrete skip-AI run. -/
theorem analyzePaper_skip_ai_witness :
    (analyzePaper ⟨"R", "A1", ""⟩ ⟨"W1", "t", "", "", "", "", 0, "", "abs", none⟩
        ⟨false, true⟩ [] (fun _ => .error "x") "now").calls = 0 ∧
    (analyzePaper ⟨"R", "A1", ""⟩ ⟨"W1", "t", "", "", "", "", 0, "", "abs", none⟩
        ⟨false, true⟩ [] (fun _ => .error "x") "now").result
      = .ok (skippedAnalysis, false) :=
  ⟨analyzePaper_skip_ai.1 ⟨"R", "A1", ""⟩
      ⟨"W1", "t", "", "", "", "", 0, "", "abs", none⟩ ⟨false, true⟩ []
      (fun _ => .error "x") "now" rfl,
    (analyzePaper_skip_ai.2.1 ⟨"R", "A1", ""⟩
      ⟨"W1", "t", "", "", "", "", 0, "", "abs", none⟩ ⟨false, true⟩ []
      (fun _ => .error "x") "now" rfl rfl (by decide)).1⟩

/-! ### Clamping lemmas -/

theorem clamp01_nonneg (v : Option ℚ) : 0 ≤ clamp01 v 0 := by
  cases v with
  | none => simp [clamp01]
  | some q =>
    show 0 ≤ (if q < 0 then 0 else if q > 1 then 1 else q : ℚ)
    split_ifs with h1 h2
    · exact le_refl 0
    · exact zero_le_one
    · exact not_lt.mp h1

theorem clamp01_le_one (v : Option ℚ) : clamp01 v 0 ≤ 1 := by
  cases v with
  | none => simp [clamp01]
  | some q =>
    show (if q < 0 then 0 else if q > 1 then 1 else q : ℚ) ≤ 1
    split_ifs with h1 h2
    · exact zero_le_one
    · exact le_refl 1
    · exact not_lt.mp h2

theorem clamp01_neg (q : ℚ) (h : q < 0) : clamp01 (some q) 0 = 0 := by
  simp [clamp01, h]

theorem clamp01_gt_one (q : ℚ) (h : 1 < q) : clamp01 (some q) 0 = 1 := by
  show (if q < 0 then 0 else if q > 1 then 1 else q : ℚ) = 1
  rw [if_neg (by linarith), if_pos h]

/-- C7 counterexample: the raw relevance score 2 is out of range, yet the
normalized score is 1 — the value is clamped to the nearer bound, not
replaced by the safe default 0. -/
theorem normalizePaperFilter_out_of_range_not_zeroed :
    (normalizePaperFilter ⟨false, some 2, some 2, none, none, none, none⟩).relevance_score
        = 1 ∧
    (1 : ℚ) ≠ 0 := by
  constructor
  · norm_num [normalizePaperFilter, clamp01]
  · norm_num

/-- C7 (amended): the normalized analysis has its numeric fields
(relevance score and confidence) in `[0, 1]`; a non-numeric raw value is
replaced by the safe default 0, and an out-of-range raw value is clamped
to the nearer bound — below 0 becomes 0, above 1 becomes 1. -/
theorem normalizePaperFilter_clamped (raw : Raw) :
    0 ≤ (normalizePaperFilter raw).relevance_score ∧
    (normalizePaperFilter raw).relevance_score ≤ 1 ∧
    0 ≤ (normalizePaperFilter raw).confidence ∧
    (normalizePaperFilter raw).confidence ≤ 1 ∧
    (raw.relevance_score = none → (normalizePaperFilter raw).relevance_score = 0) ∧
    (raw.confidence = none → (normalizePaperFilter raw).confidence = 0) ∧
    (∀ q : ℚ, raw.relevance_score = some q → q < 0 →
      (normalizePaperFilter raw).relevance_score = 0) ∧
    (∀ q : ℚ, raw.relevance_score = some q → 1 < q →
      (normalizePaperFilter raw).relevance_score = 1) ∧
    (∀ q : ℚ, raw.confidence = some q → q < 0 →
      (normalizePaperFilter raw).confidence = 0) ∧
    (∀ q : ℚ, raw.confidence = some q → 1 < q →
      (normalizePaperFilter raw).confidence = 1) := by
  refine ⟨clamp01_nonneg raw.relevance_score, clamp01_le_one raw.relevance_score,
    clamp01_nonneg raw.confidence, clamp01_le_one raw.confidence,
    ?_, ?_, ?_, ?_, ?_, ?_⟩
  · intro h
    simp [normalizePaperFilter, h, clamp01]
  · intro h
    simp [normalizePaperFilter, h, clamp01]
  · intro q hq h
    simp only [normalizePaperFilter, hq]
    exact clamp01_neg q h
  · intro q hq h
    simp only [normalizePaperFilter, hq]
    exact clamp01_gt_one q h
  · intro q hq h
    simp only [normalizePaperFilter, hq]
    exact clamp01_neg q h
  · intro q hq h
    simp only [normalizePaperFilter, hq]
    exact clamp01_gt_one q h

/-- Witness for the amended C7 at a concrete out-of-range response. -/
theorem normalizePaperFilter_clamped_witness :
    (normalizePaperFilter ⟨false, some 2, none, none, none, none, none⟩).relevance_score
      = 1 :=
  (normalizePaperFilter_clamped
    ⟨false, some 2, none, none, none, none, none⟩).2.2.2.2.2.2.2.1 2 rfl (by norm_num)

/-- C9: when the run is not a full refresh, no new works were analyzed and
a prior topic summary exists, the produced summary is the previous one
unchanged and no AI summary call is made; conversely an AI summary call
can happen only on a full refresh, with new works, or with no prior
summary. -/
theorem topicSummary_carryover :
    (∀ (skipAi : Bool) (merged : List Work) (s : TopicSummary)
       (aiResp : Except String RawSummary),
       computeTopicSummary false skipAi [] merged (some s) aiResp = ⟨s, false⟩) ∧
    (∀ (fullRefresh skipAi : Bool) (newWorks merged : List Work)
       (prev : Option TopicSummary) (aiResp : Except String RawSummary),
       (computeTopicSummary fullRefresh skipAi newWorks merged prev
           aiResp).ai_summary_called = true →
       fullRefresh = true ∨ newWorks ≠ [] ∨ prev = none) := by
  constructor
  · intro skipAi merged s aiResp
    simp [computeTopicSummary]
  · intro fullRefresh skipAi newWorks merged prev aiResp h
    by_contra hcon
    push_neg at hcon
    obtain ⟨h1, h2, h3⟩ := hcon
    have hf : fullRefresh = false := by
      cases fullRefresh
      · rfl
      · exact absurd rfl h1
    cases prev with
    | none => exact h3 rfl
    | some s =>
      rw [hf, h2] at h
      simp [computeTopicSummary] at h

/-- Witness for C9 at a concrete prior summary and a concrete recompute. -/
theorem topicSummary_carryover_witness :
    computeTopicSummary false true [] [] (some ⟨[], "prev", []⟩) (.error "e")
        = ⟨⟨[], "prev", []⟩, false⟩ ∧
    ((true : Bool) = true ∨ ([] : List Work) ≠ [] ∨
      (none : Option TopicSummary) = none) :=
  ⟨topicSummary_carryover.1 true [] ⟨[], "prev", []⟩ (.error "e"),
    topicSummary_carryover.2 true false [] [] none (.error "x") rfl⟩

/-! ### The tie-break comparator is a strict total order on keys -/

theorem charToNat_inj (c d : Char) (h : c.toNat = d.toNat) : c = d :=
  Char.eq_of_val_eq (UInt32.eq_of_toBitVec_eq (BitVec.eq_of_toNat_eq h))

theorem stringToList_inj (x y : String) (h : x.toList = y.toList) : x = y := by
  cases x
  cases y
  exact congrArg String.mk (by simpa using h)

theorem listStrLt_irrefl (l : List Char) : listStrLt l l = false := by
  induction l with
  | nil => rfl
  | cons c cs ih => simp [listStrLt, ih]

theorem listStrLt_trans (a b c : List Char) (h1 : listStrLt a b = true)
    (h2 : listStrLt b c = true) : listStrLt a c = true := by
  induction a generalizing b c with
  | nil =>
    cases b with
    | nil => cases h1
    | cons d ds =>
      cases c with
      | nil => cases h2
      | cons e es => rfl
  | cons x xs ih =>
    cases b with
    | nil => cases h1
    | cons d ds =>
      cases c with
      | nil => cases h2
      | cons e es =>
        simp only [listStrLt] at h1 h2 ⊢
        by_cases hxd : x.toNat < d.toNat
        · by_cases hde : d.toNat < e.toNat
          · simp [show x.toNat < e.toNat by omega]
          · by_cases hed : e.toNat < d.toNat
            · simp [hde, hed] at h2
            · simp [show x.toNat < e.toNat by omega]
        · by_cases hdx : d.toNat < x.toNat
          · simp [hxd, hdx] at h1
          · simp only [hxd, hdx, if_false] at h1
            by_cases hde : d.toNat < e.toNat
            · simp [show x.toNat < e.toNat by omega]
            · by_cases hed : e.toNat < d.toNat
              · simp [hde, hed] at h2
              · simp only [hde, hed, if_false] at h2
                have hxe : ¬ x.toNat < e.toNat := by omega
                have hex : ¬ e.toNat < x.toNat := by omega
                simp only [hxe, hex, if_false]
                exact ih ds es h1 h2

theorem listStrLt_asymm (a b : List Char) (h : listStrLt a b = true) :
    listStrLt b a = false := by
  induction a generalizing b with
  | nil =>
    cases b with
    | nil => cases h
    | cons d ds => rfl
  | cons x xs ih =>
    cases b with
    | nil => cases h
    | cons d ds =>
      simp only [listStrLt] at h ⊢
      by_cases hxd : x.toNat < d.toNat
      · simp [show ¬ d.toNat < x.toNat by omega, hxd]
      · by_cases hdx : d.toNat < x.toNat
        · simp [hxd, hdx] at h
        · simp only [hxd, hdx, if_false] at h ⊢
          exact ih ds h

theorem listStrLt_total (a b : List Char) (h : a ≠ b) :
    listStrLt a b = true ∨ listStrLt b a = true := by
  induction a generalizing b with
  | nil =>
    cases b with
    | nil => exact absurd rfl h
    | cons d ds => exact .inl rfl
  | cons x xs ih =>
    cases b with
    | nil => exact .inr rfl
    | cons d ds =>
      by_cases hxd : x.toNat < d.toNat
      · exact .inl (by simp [listStrLt, hxd])
      · by_cases hdx : d.toNat < x.toNat
        · exact .inr (by simp [listStrLt, hdx])
        · have hcd : x = d := charToNat_inj x d (by omega)
          have htl : xs ≠ ds := by
            intro hc
            exact h (by rw [hcd, hc])
          rcases ih ds htl with ht | ht
          · exact .inl (by simp [listStrLt, hxd, hdx, ht])
          · exact .inr (by simp [listStrLt, hxd, hdx, ht])

theorem natGtB_irrefl (x : Nat) : natGtB x x = false := by
  simp [natGtB]

theorem natGtB_strictTotal : StrictTotalGt natGtB := by
  constructor
  · intro a b c h1 h2
    simp only [natGtB, decide_eq_true_eq] at h1 h2 ⊢
    omega
  · intro a b h
    simp only [natGtB, decide_eq_true_eq, decide_eq_false_iff_not] at h ⊢
    omega
  · intro a b h
    simp only [natGtB, decide_eq_true_eq]
    omega

theorem strGtB_irrefl (s : String) : strGtB s s = false :=
  listStrLt_irrefl s.toList

theorem strGtB_strictTotal : StrictTotalGt strGtB := by
  constructor
  · intro a b c h1 h2
    exact listStrLt_trans c.toList b.toList a.toList h2 h1
  · intro a b h
    exact listStrLt_asymm b.toList a.toList h
  · intro a b h
    have hne : b.toList ≠ a.toList := fun hc => h (stringToList_inj b a hc).symm
    rcases listStrLt_total b.toList a.toList hne with ht | ht
    · exact .inl ht
    · exact .inr ht

theorem gtLayer_irrefl {α β : Type} [DecidableEq α] (gtA : α → α → Bool)
    (g : β → β → Bool) (hA : ∀ x, gtA x x = false) (hB : ∀ x, g x x = false)
    (x : α × β) : gtLayer gtA g x x = false := by
  simp [gtLayer, hA, hB]

theorem strictTotalGt_irrefl {α : Type} {gt : α → α → Bool} (h : StrictTotalGt gt)
    (x : α) : gt x x = false := by
  cases hx : gt x x
  · rfl
  · have h2 := h.asymm x x hx
    exact Bool.noConfusion (hx.symm.trans h2)

theorem gtLayer_strictTotal {α β : Type} [DecidableEq α] (gtA : α → α → Bool)
    (g : β → β → Bool) (hA : StrictTotalGt gtA) (hB : StrictTotalGt g) :
    StrictTotalGt (gtLayer gtA g) := by
  have hairr : ∀ x, gtA x x = false := strictTotalGt_irrefl hA
  have hbirr : ∀ x, g x x = false := strictTotalGt_irrefl hB
  constructor
  · intro x y z h1 h2
    simp only [gtLayer, Bool.or_eq_true, Bool.and_eq_true, decide_eq_true_eq] at h1 h2 ⊢
    rcases h1 with h1 | ⟨he1, hg1⟩
    · rcases h2 with h2 | ⟨he2, hg2⟩
      · exact .inl (hA.trans _ _ _ h1 h2)
      · exact .inl (he2 ▸ h1)
    · rcases h2 with h2 | ⟨he2, hg2⟩
      · exact .inl (he1.symm ▸ h2)
      · exact .inr ⟨he1.trans he2, hB.trans _ _ _ hg1 hg2⟩
  · intro x y h
    cases hyx : gtLayer gtA g y x
    · rfl
    · exfalso
      simp only [gtLayer, Bool.or_eq_true, Bool.and_eq_true, decide_eq_true_eq] at h hyx
      rcases h with h | ⟨he, hg⟩ <;> rcases hyx with h2 | ⟨he2, hg2⟩
      · have h3 := hA.asymm _ _ h
        exact Bool.noConfusion (h2.symm.trans h3)
      · rw [he2] at h
        exact Bool.noConfusion (h.symm.trans (hairr x.1))
      · rw [he] at h2
        exact Bool.noConfusion (h2.symm.trans (hairr y.1))
      · have h3 := hB.asymm _ _ hg
        exact Bool.noConfusion (hg2.symm.trans h3)
  · intro x y hne
    by_cases h1 : x.1 = y.1
    · have h2 : x.2 ≠ y.2 := fun hc => hne (Prod.ext h1 hc)
      rcases hB.total _ _ h2 with hg | hg
      · exact .inl (by simp [gtLayer, h1, hg])
      · exact .inr (by simp [gtLayer, h1.symm, hg])
    · rcases hA.total _ _ h1 with hg | hg
      · exact .inl (by simp [gtLayer, hg])
      · exact .inr (by simp [gtLayer, hg])

theorem keyGtB_strictTotal : StrictTotalGt keyGtB :=
  gtLayer_strictTotal natGtB _ natGtB_strictTotal
    (gtLayer_strictTotal natGtB _ natGtB_strictTotal
      (gtLayer_strictTotal natGtB _ natGtB_strictTotal
        (gtLayer_strictTotal natGtB _ natGtB_strictTotal
          (gtLayer_strictTotal strGtB _ strGtB_strictTotal strGtB_strictTotal))))

theorem ite_ne_eq_gtLayer {α : Type} [DecidableEq α] (gtA : α → α → Bool)
    (hirr : ∀ z, gtA z z = false) (x y : α) (r : Bool) :
    (if x ≠ y then gtA x y else r) = (gtA x y || (decide (x = y) && r)) := by
  by_cases h : x = y
  · subst h
    simp [hirr x]
  · simp [h]

theorem tail4_eq (a b : Work) :
    (if publishedVenuePriority a ≠ publishedVenuePriority b then
       natGtB (publishedVenuePriority a) (publishedVenuePriority b)
     else if a.cited_by_count ≠ b.cited_by_count then
       natGtB a.cited_by_count b.cited_by_count
     else if a.publication_date ≠ b.publication_date then
       strGtB a.publication_date b.publication_date
     else strGtB a.id b.id)
      = gtLayer natGtB (gtLayer natGtB (gtLayer strGtB strGtB))
          (publishedVenuePriority a, a.cited_by_count, a.publication_date, a.id)
          (publishedVenuePriority b, b.cited_by_count, b.publication_date, b.id) := by
  rw [ite_ne_eq_gtLayer strGtB strGtB_irrefl a.publication_date b.publication_date
      (strGtB a.id b.id),
    ite_ne_eq_gtLayer natGtB natGtB_irrefl a.cited_by_count b.cited_by_count _,
    ite_ne_eq_gtLayer natGtB natGtB_irrefl (publishedVenuePriority a)
      (publishedVenuePriority b) _]
  rfl

theorem isBetter_eq_keyGtB (a b : Work) :
    isBetterWorkCandidate a b = keyGtB (workKey a) (workKey b) := by
  cases hpa : isPreprintWork a <;> cases hpb : isPreprintWork b
  · simp only [isBetterWorkCandidate, hpa, hpb]
    rw [if_neg (by simp), if_neg (by simp), tail4_eq a b]
    simp [keyGtB, workKey, workKeyQ1, workKeyQ2, hpa, hpb, gtLayer, natGtB]
  · simp only [isBetterWorkCandidate, hpa, hpb]
    rw [if_pos (by simp)]
    simp [keyGtB, workKey, workKeyQ1, workKeyQ2, hpa, hpb, gtLayer, natGtB]
  · simp only [isBetterWorkCandidate, hpa, hpb]
    rw [if_pos (by simp)]
    simp [keyGtB, workKey, workKeyQ1, workKeyQ2, hpa, hpb, gtLayer, natGtB]
  · simp only [isBetterWorkCandidate, hpa, hpb]
    rw [if_neg (by simp)]
    cases hxa : isArxivOrgSource a <;> cases hxb : isArxivOrgSource b
    · rw [if_neg (by simp [hxa, hxb]), tail4_eq a b]
      simp [keyGtB, workKey, workKeyQ1, workKeyQ2, hpa, hpb, hxa, hxb, gtLayer, natGtB]
    · rw [if_pos (by simp [hxa, hxb])]
      simp [keyGtB, workKey, workKeyQ1, workKeyQ2, hpa, hpb, hxa, hxb, gtLayer, natGtB]
    · rw [if_pos (by simp [hxa, hxb])]
      simp [keyGtB, workKey, workKeyQ1, workKeyQ2, hpa, hpb, hxa, hxb, gtLayer, natGtB]
    · rw [if_neg (by simp [hxa, hxb]), tail4_eq a b]
      simp [keyGtB, workKey, workKeyQ1, workKeyQ2, hpa, hpb, hxa, hxb, gtLayer, natGtB]

theorem isBetter_trans (a b c : Work) (h1 : isBetterWorkCandidate a b = true)
    (h2 : isBetterWorkCandidate b c = true) : isBetterWorkCandidate a c = true := by
  rw [isBetter_eq_keyGtB] at h1 h2 ⊢
  exact keyGtB_strictTotal.trans _ _ _ h1 h2

theorem isBetter_asymm (a b : Work) (h : isBetterWorkCandidate a b = true) :
    isBetterWorkCandidate b a = false := by
  rw [isBetter_eq_keyGtB] at h ⊢
  exact keyGtB_strictTotal.asymm _ _ h

theorem workKey_id (a b : Work) (h : workKey a = workKey b) : a.id = b.id :=
  congrArg (fun k : WorkKey => k.2.2.2.2.2) h

theorem isBetter_total (a b : Work) (h : a.id ≠ b.id) :
    isBetterWorkCandidate a b = true ∨ isBetterWorkCandidate b a = true := by
  rw [isBetter_eq_keyGtB, isBetter_eq_keyGtB]
  exact keyGtB_strictTotal.total _ _ (fun hc => h (workKey_id a b hc))

theorem venuePriority_rank_iff (a b : Work) :
    (publishedVenuePriority a = publishedVenuePriority b
        ↔ specVenueTypeRank a = specVenueTypeRank b) ∧
    natGtB (publishedVenuePriority a) (publishedVenuePriority b)
        = natGtB (specVenueTypeRank a) (specVenueTypeRank b) := by
  simp only [publishedVenuePriority, specVenueTypeRank]
  split_ifs <;> simp [natGtB]

/-- C2: for every pair of works, `isBetterWorkCandidate` agrees with the
spec's preference chain applied in order until a difference is found —
non-preprint over preprint, then arxiv.org among preprints, then the
venue-type priority journal > conference > book series > (other) >
repository, then citation count, then lexicographic publication date,
then lexicographically larger external id. -/
theorem isBetterWorkCandidate_follows_spec_chain :
    ∀ a b : Work, isBetterWorkCandidate a b = specIsBetterWorkCandidate a b := by
  intro a b
  obtain ⟨hiff, hgt⟩ := venuePriority_rank_iff a b
  simp only [isBetterWorkCandidate, specIsBetterWorkCandidate]
  by_cases hv : publishedVenuePriority a = publishedVenuePriority b
  · have hv2 := hiff.mp hv
    simp [hv, hv2]
  · have hv2 : ¬ specVenueTypeRank a = specVenueTypeRank b := fun hc => hv (hiff.mpr hc)
    simp [hv, hv2, hgt]

/-! ### The dedupe winner for one title key -/

theorem foldWin_cons (cur w : Work) (rest : List Work) :
    foldWin cur (w :: rest) = foldWin (if isBetterWorkCandidate w cur then w else cur) rest :=
  rfl

theorem foldWin_mem (cur : Work) (l : List Work) : foldWin cur l ∈ cur :: l := by
  induction l generalizing cur with
  | nil => simp [foldWin]
  | cons w rest ih =>
    rw [foldWin_cons]
    have h2 := ih (if isBetterWorkCandidate w cur then w else cur)
    rcases List.mem_cons.mp h2 with h3 | h3
    · rw [h3]
      by_cases hb : isBetterWorkCandidate w cur
      · simp [hb]
      · simp [hb]
    · exact List.mem_cons_of_mem _ (List.mem_cons_of_mem _ h3)

theorem mem_pairwise_id_eq (l : List Work)
    (hpw : l.Pairwise (fun u v => u.id ≠ v.id)) (x y : Work)
    (hx : x ∈ l) (hy : y ∈ l) (h : x.id = y.id) : x = y := by
  induction l with
  | nil => cases hx
  | cons a rest ih =>
    rw [List.pairwise_cons] at hpw
    obtain ⟨ha, hrest⟩ := hpw
    rcases List.mem_cons.mp hx with rfl | hx2
    · rcases List.mem_cons.mp hy with rfl | hy2
      · rfl
      · exact absurd h (ha y hy2)
    · rcases List.mem_cons.mp hy with rfl | hy2
      · exact absurd h.symm (ha x hx2)
      · exact ih hrest hx2 hy2

theorem foldWin_beats (l : List Work) : ∀ (cur : Work),
    (cur :: l).Pairwise (fun u v => u.id ≠ v.id) →
    ∀ x ∈ cur :: l, x.id ≠ (foldWin cur l).id →
      isBetterWorkCandidate (foldWin cur l) x = true := by
  induction l with
  | nil =>
    intro cur _ x hx hne
    rcases List.mem_cons.mp hx with rfl | hx2
    · exact absurd rfl hne
    · cases hx2
  | cons w rest ih =>
    intro cur hpw x hx hne
    rw [List.pairwise_cons] at hpw
    obtain ⟨hcur_all, hpwtail⟩ := hpw
    have hpwtail2 := hpwtail
    rw [List.pairwise_cons] at hpwtail2
    obtain ⟨hw_all, hpwrest⟩ := hpwtail2
    have hcw : cur.id ≠ w.id := hcur_all w (List.mem_cons_self w rest)
    rw [foldWin_cons] at hne ⊢
    have hpw' : ((if isBetterWorkCandidate w cur then w else cur) :: rest).Pairwise
        (fun u v => u.id ≠ v.id) := by
      rw [List.pairwise_cons]
      refine ⟨?_, hpwrest⟩
      intro y hy
      by_cases hb : isBetterWorkCandidate w cur
      · rw [if_pos hb]
        exact hw_all y hy
      · rw [if_neg hb]
        exact hcur_all y (List.mem_cons_of_mem w hy)
    have hbeats_dropped :
        isBetterWorkCandidate (if isBetterWorkCandidate w cur then w else cur)
          (if isBetterWorkCandidate w cur then cur else w) = true := by
      by_cases hb : isBetterWorkCandidate w cur
      · rw [if_pos hb, if_pos hb]
        exact hb
      · rw [if_neg hb, if_neg hb]
        rcases isBetter_total cur w hcw with ht | ht
        · exact ht
        · exact absurd ht hb
    have hr_mem := foldWin_mem (if isBetterWorkCandidate w cur then w else cur) rest
    have hmain : ∀ y, y = (if isBetterWorkCandidate w cur then cur else w) →
        y.id ≠ (foldWin (if isBetterWorkCandidate w cur then w else cur) rest).id →
        isBetterWorkCandidate (foldWin (if isBetterWorkCandidate w cur then w else cur) rest)
          y = true := by
      intro y hy hyne
      by_cases hrid : (foldWin (if isBetterWorkCandidate w cur then w else cur) rest).id
          = (if isBetterWorkCandidate w cur then w else cur).id
      · have hreq := mem_pairwise_id_eq _ hpw' _ _ hr_mem
          (List.mem_cons_self _ rest) hrid
        rw [hreq, hy]
        exact hbeats_dropped
      · have hb1 := ih (if isBetterWorkCandidate w cur then w else cur) hpw'
          (if isBetterWorkCandidate w cur then w else cur)
          (List.mem_cons_self _ rest) (fun hc => hrid hc.symm)
        rw [hy]
        exact isBetter_trans _ _ _ hb1 hbeats_dropped
    rcases List.mem_cons.mp hx with heq | hx2
    · by_cases hb : isBetterWorkCandidate w cur
      · exact hmain x (by rw [heq, if_pos hb]) hne
      · exact ih (if isBetterWorkCandidate w cur then w else cur) hpw' x
          (by rw [if_neg hb, heq]; exact List.mem_cons_self cur rest) hne
    · rcases List.mem_cons.mp hx2 with heq | hx3
      · by_cases hb : isBetterWorkCandidate w cur
        · exact ih (if isBetterWorkCandidate w cur then w else cur) hpw' x
            (by rw [if_pos hb, heq]; exact List.mem_cons_self w rest) hne
        · exact hmain x (by rw [heq, if_neg hb]) hne
      · exact ih (if isBetterWorkCandidate w cur then w else cur) hpw' x
          (List.mem_cons_of_mem _ hx3) hne

theorem dedupeStep_single (k : String) (hk : k ≠ "") (cur w : Work)
    (hw : normalizeTitle w.title = k) :
    dedupeStep [(k, cur)] w = [(k, if isBetterWorkCandidate w cur then w else cur)] := by
  unfold dedupeStep
  rw [hw, if_neg hk]
  have hget : jsMapGet [(k, cur)] k = some cur := by simp [jsMapGet]
  rw [hget]
  show (if isBetterWorkCandidate w cur = true then jsMapSet [(k, cur)] k w
      else [(k, cur)])
    = [(k, if isBetterWorkCandidate w cur then w else cur)]
  by_cases hb : isBetterWorkCandidate w cur
  · rw [if_pos hb, if_pos hb]
    simp [jsMapSet]
  · rw [if_neg hb, if_neg hb]

theorem dedupe_single_key (k : String) (hk : k ≠ "") :
    ∀ (l : List Work) (cur : Work), (∀ w ∈ l, normalizeTitle w.title = k) →
    List.foldl dedupeStep [(k, cur)] l = [(k, foldWin cur l)] := by
  intro l
  induction l with
  | nil =>
    intro cur _
    simp [foldWin]
  | cons w rest ih =>
    intro cur h
    have hw : normalizeTitle w.title = k := h w (List.mem_cons_self w rest)
    have hrest : ∀ x ∈ rest, normalizeTitle x.title = k := fun x hx =>
      h x (List.mem_cons_of_mem w hx)
    rw [List.foldl_cons, dedupeStep_single k hk cur w hw, ih _ hrest, foldWin_cons]

theorem dedupe_same_key (k : String) (hk : k ≠ "") (w : Work) (rest : List Work)
    (h : ∀ x ∈ w :: rest, normalizeTitle x.title = k) :
    dedupeWorksByTitle (w :: rest) = [foldWin w rest] := by
  unfold dedupeWorksByTitle
  rw [List.foldl_cons]
  have h1 : dedupeStep [] w = [(k, w)] := by
    unfold dedupeStep
    rw [h w (List.mem_cons_self w rest), if_neg hk]
    simp [jsMapGet, jsMapSet]
  rw [h1, dedupe_single_key k hk rest w
    (fun x hx => h x (List.mem_cons_of_mem w hx))]
  rfl

theorem winner_unique (l : List Work) (hpw : l.Pairwise (fun u v => u.id ≠ v.id))
    (m1 m2 : Work) (h1m : m1 ∈ l) (h2m : m2 ∈ l)
    (h1 : ∀ x ∈ l, x.id ≠ m1.id → isBetterWorkCandidate m1 x = true)
    (h2 : ∀ x ∈ l, x.id ≠ m2.id → isBetterWorkCandidate m2 x = true) : m1 = m2 := by
  by_cases hid : m1.id = m2.id
  · exact mem_pairwise_id_eq l hpw m1 m2 h1m h2m hid
  · have hb1 := h1 m2 h2m (fun hc => hid hc.symm)
    have hb2 := h2 m1 h1m hid
    have hfalse := isBetter_asymm m1 m2 hb1
    exact Bool.noConfusion (hb2.symm.trans hfalse)

/-- C1: the tie-break comparison is a strict total order on works — for
two works with distinct external ids exactly one is preferred, and the
preference is transitive — so for a list of competing records sharing one
normalized title key, `dedupeWorksByTitle` selects the same winner under
any permutation of the input. -/
theorem tieBreak_total_order_dedupe_perm :
    (∀ a b : Work, a.id ≠ b.id →
       (isBetterWorkCandidate a b = true ↔ ¬ isBetterWorkCandidate b a = true)) ∧
    (∀ a b c : Work, isBetterWorkCandidate a b = true →
       isBetterWorkCandidate b c = true → isBetterWorkCandidate a c = true) ∧
    (∀ (k : String) (l1 l2 : List Work), k ≠ "" →
       (∀ w ∈ l1, normalizeTitle w.title = k) →
       l1.Pairwise (fun u v => u.id ≠ v.id) → l1.Perm l2 →
       dedupeWorksByTitle l1 = dedupeWorksByTitle l2) := by
  refine ⟨?_, isBetter_trans, ?_⟩
  · intro a b hid
    constructor
    · intro h hcon
      have hfalse := isBetter_asymm a b h
      exact Bool.noConfusion (hcon.symm.trans hfalse)
    · intro h
      rcases isBetter_total a b hid with ht | ht
      · exact ht
      · exact absurd ht h
  · intro k l1 l2 hk hall hpw hperm
    cases l1 with
    | nil =>
      rw [hperm.symm.eq_nil]
    | cons w rest =>
      cases hl2eq : l2 with
      | nil =>
        rw [hl2eq] at hperm
        cases hperm.eq_nil
      | cons w2 rest2 =>
        rw [hl2eq] at hperm
        have hall2 : ∀ x ∈ w2 :: rest2, normalizeTitle x.title = k := fun x hx =>
          hall x (hperm.mem_iff.mpr hx)
        have hpw2 : (w2 :: rest2).Pairwise (fun u v => u.id ≠ v.id) :=
          (hperm.pairwise_iff (fun h => Ne.symm h)).mp hpw
        rw [dedupe_same_key k hk w rest hall,
          dedupe_same_key k hk w2 rest2 hall2]
        have hm1 : foldWin w rest ∈ w :: rest := foldWin_mem w rest
        have hm2 : foldWin w2 rest2 ∈ w :: rest :=
          hperm.mem_iff.mpr (foldWin_mem w2 rest2)
        have hb1 := foldWin_beats rest w hpw
        have hb2 : ∀ x ∈ w :: rest, x.id ≠ (foldWin w2 rest2).id →
            isBetterWorkCandidate (foldWin w2 rest2) x = true := fun x hx hxne =>
          foldWin_beats rest2 w2 hpw2 x (hperm.mem_iff.mp hx) hxne
        rw [winner_unique (w :: rest) hpw (foldWin w rest) (foldWin w2 rest2)
          hm1 hm2 hb1 hb2]

/-- Witness for C1 at two concrete competing records and a concrete
transposition. -/
theorem tieBreak_total_order_dedupe_perm_witness :
    (isBetterWorkCandidate ⟨"W1", "A b", "", "", "", "", 0, "", "", none⟩
        ⟨"W2", "a B!", "", "", "", "", 3, "", "", none⟩ = true ↔
      ¬ isBetterWorkCandidate ⟨"W2", "a B!", "", "", "", "", 3, "", "", none⟩
        ⟨"W1", "A b", "", "", "", "", 0, "", "", none⟩ = true) ∧
    dedupeWorksByTitle [⟨"W1", "A b", "", "", "", "", 0, "", "", none⟩,
        ⟨"W2", "a B!", "", "", "", "", 3, "", "", none⟩]
      = dedupeWorksByTitle [⟨"W2", "a B!", "", "", "", "", 3, "", "", none⟩,
        ⟨"W1", "A b", "", "", "", "", 0, "", "", none⟩] :=
  ⟨tieBreak_total_order_dedupe_perm.1 ⟨"W1", "A b", "", "", "", "", 0, "", "", none⟩
      ⟨"W2", "a B!", "", "", "", "", 3, "", "", none⟩ (by decide),
    tieBreak_total_order_dedupe_perm.2.2 "a b"
      [⟨"W1", "A b", "", "", "", "", 0, "", "", none⟩,
        ⟨"W2", "a B!", "", "", "", "", 3, "", "", none⟩]
      [⟨"W2", "a B!", "", "", "", "", 3, "", "", none⟩,
        ⟨"W1", "A b", "", "", "", "", 0, "", "", none⟩]
      (by decide) (by decide) (by decide) (List.Perm.swap _ _ _)⟩

/-! ### Distinctness of nonempty title keys in the dedupe output -/

theorem mem_jsMapSet {α : Type} (m : List (String × α)) (k : String) (v : α)
    (p : String × α) (hp : p ∈ jsMapSet m k v) : p = (k, v) ∨ p ∈ m := by
  induction m with
  | nil =>
    simp [jsMapSet] at hp
    exact .inl hp
  | cons q rest ih =>
    obtain ⟨k', v'⟩ := q
    by_cases hk : k' = k
    · simp only [jsMapSet, hk, if_true] at hp
      rcases List.mem_cons.mp hp with heq | hmem
      · subst hk
        exact .inl heq
      · exact .inr (List.mem_cons_of_mem _ hmem)
    · simp only [jsMapSet, hk, if_false] at hp
      rcases List.mem_cons.mp hp with heq | hmem
      · exact .inr (heq ▸ List.mem_cons_self _ _)
      · rcases ih hmem with h | h
        · exact .inl h
        · exact .inr (List.mem_cons_of_mem _ h)

theorem jsMapSet_pairwise {α : Type} (m : List (String × α)) (k : String) (v : α)
    (h : m.Pairwise (fun p q => p.1 ≠ q.1)) :
    (jsMapSet m k v).Pairwise (fun p q => p.1 ≠ q.1) := by
  induction m with
  | nil => simp [jsMapSet]
  | cons q rest ih =>
    obtain ⟨k', v'⟩ := q
    rw [List.pairwise_cons] at h
    obtain ⟨hhead, htail⟩ := h
    by_cases hk : k' = k
    · simp only [jsMapSet, hk, if_true]
      rw [List.pairwise_cons]
      exact ⟨fun q hq => hk ▸ hhead q hq, htail⟩
    · simp only [jsMapSet, hk, if_false]
      rw [List.pairwise_cons]
      refine ⟨?_, ih htail⟩
      intro q hq
      rcases mem_jsMapSet rest k v q hq with heq | hmem
      · rw [heq]
        exact hk
      · exact hhead q hmem

theorem dedupeStep_inv (m : List (String × Work)) (w : Work)
    (h1 : m.Pairwise (fun p q => p.1 ≠ q.1))
    (h2 : ∀ p ∈ m, normalizeTitle p.2.title ≠ "" → p.1 = normalizeTitle p.2.title) :
    (dedupeStep m w).Pairwise (fun p q => p.1 ≠ q.1) ∧
    ∀ p ∈ dedupeStep m w, normalizeTitle p.2.title ≠ "" →
      p.1 = normalizeTitle p.2.title := by
  unfold dedupeStep
  by_cases hk : normalizeTitle w.title = ""
  · rw [if_pos hk]
    refine ⟨jsMapSet_pairwise m _ w h1, ?_⟩
    intro p hp hne
    rcases mem_jsMapSet m _ w p hp with heq | hmem
    · rw [heq] at hne
      exact absurd hk hne
    · exact h2 p hmem hne
  · rw [if_neg hk]
    cases hget : jsMapGet m (normalizeTitle w.title) with
    | none =>
      refine ⟨jsMapSet_pairwise m _ w h1, ?_⟩
      intro p hp hne
      rcases mem_jsMapSet m _ w p hp with heq | hmem
      · rw [heq]
      · exact h2 p hmem hne
    | some existing =>
      show (if isBetterWorkCandidate w existing = true then
            jsMapSet m (normalizeTitle w.title) w else m).Pairwise
            (fun p q => p.1 ≠ q.1) ∧
          ∀ p ∈ (if isBetterWorkCandidate w existing = true then
            jsMapSet m (normalizeTitle w.title) w else m),
            normalizeTitle p.2.title ≠ "" → p.1 = normalizeTitle p.2.title
      by_cases hb : isBetterWorkCandidate w existing
      · rw [if_pos hb]
        refine ⟨jsMapSet_pairwise m _ w h1, ?_⟩
        intro p hp hne
        rcases mem_jsMapSet m _ w p hp with heq | hmem
        · rw [heq]
        · exact h2 p hmem hne
      · rw [if_neg hb]
        exact ⟨h1, h2⟩

theorem dedupe_fold_inv (works : List Work) :
    (works.foldl dedupeStep []).Pairwise (fun p q => p.1 ≠ q.1) ∧
    ∀ p ∈ works.foldl dedupeStep [], normalizeTitle p.2.title ≠ "" →
      p.1 = normalizeTitle p.2.title := by
  suffices h : ∀ (m : List (String × Work)),
      m.Pairwise (fun p q => p.1 ≠ q.1) →
      (∀ p ∈ m, normalizeTitle p.2.title ≠ "" → p.1 = normalizeTitle p.2.title) →
      (works.foldl dedupeStep m).Pairwise (fun p q => p.1 ≠ q.1) ∧
      ∀ p ∈ works.foldl dedupeStep m, normalizeTitle p.2.title ≠ "" →
        p.1 = normalizeTitle p.2.title by
    exact h [] (List.Pairwise.nil) (by simp)
  induction works with
  | nil => exact fun m h1 h2 => ⟨h1, h2⟩
  | cons w rest ih =>
    intro m h1 h2
    rw [List.foldl_cons]
    obtain ⟨h1', h2'⟩ := dedupeStep_inv m w h1 h2
    exact ih (dedupeStep m w) h1' h2'

/-- C5 counterexample: two distinct works whose titles both normalize to
the empty key are both kept by `dedupeWorksByTitle` (under synthetic
per-id keys), so the output contains two entries sharing the same
normalized title key. -/
theorem dedupe_shares_empty_title_key :
    dedupeWorksByTitle [⟨"W1", "!", "", "", "", "", 0, "", "", none⟩,
        ⟨"W2", "?", "", "", "", "", 0, "", "", none⟩]
      = [⟨"W1", "!", "", "", "", "", 0, "", "", none⟩,
        ⟨"W2", "?", "", "", "", "", 0, "", "", none⟩] ∧
    normalizeTitle (Work.title ⟨"W1", "!", "", "", "", "", 0, "", "", none⟩)
      = normalizeTitle (Work.title ⟨"W2", "?", "", "", "", "", 0, "", "", none⟩) ∧
    (⟨"W1", "!", "", "", "", "", 0, "", "", none⟩ : Work)
      ≠ ⟨"W2", "?", "", "", "", "", 0, "", "", none⟩ := by
  refine ⟨by decide, by decide, by decide⟩

/-- C5 (amended): in the output of `dedupeWorksByTitle` no two entries
share the same nonempty normalized title key; only works whose titles
normalize to the empty key (kept per distinct external id) can share a
key. -/
theorem dedupe_no_shared_nonempty_title_key (works : List Work) :
    (dedupeWorksByTitle works).Pairwise
      (fun a b => normalizeTitle a.title = normalizeTitle b.title →
        normalizeTitle a.title = "") := by
  obtain ⟨h1, h2⟩ := dedupe_fold_inv works
  unfold dedupeWorksByTitle
  rw [List.pairwise_map]
  apply List.Pairwise.imp_of_mem ?_ h1
  intro p q hp hq hne heq
  by_contra hcon
  have hq2 : normalizeTitle q.2.title ≠ "" := by
    rw [← heq]
    exact hcon
  have hkp := h2 p hp hcon
  have hkq := h2 q hq hq2
  exact hne (by rw [hkp, hkq, heq])

/-! ### The max-papers bound of `fetchAuthorWorks` -/

theorem dedupe_length (l : List Work) :
    (dedupeWorksByTitle l).length = (l.foldl dedupeStep []).length := by
  unfold dedupeWorksByTitle
  rw [List.length_map]

theorem trackStep_eq_dedupeStep (m : List (String × Work)) (w : Work)
    (h : normalizeTitle w.title ≠ "") : trackStep m w = dedupeStep m w := by
  unfold trackStep dedupeStep
  rw [if_neg h, if_neg h]

theorem processPage_bound (m : Nat) (hm : 0 < m) (knownIds : Option (List String)) :
    ∀ (page : List Work) (st : FetchState) (pk : Nat),
    (∀ w ∈ page, normalizeTitle w.title ≠ "") →
    (∀ w ∈ st.works, normalizeTitle w.title ≠ "") →
    st.dedupedByTitle = st.works.foldl dedupeStep [] →
    st.dedupedByTitle.length < m →
    (∀ early, processPage (some m) knownIds st pk page = .inr early →
      early.length ≤ m) ∧
    (∀ st' pk', processPage (some m) knownIds st pk page = .inl (st', pk') →
      (∀ w ∈ st'.works, normalizeTitle w.title ≠ "") ∧
      st'.dedupedByTitle = st'.works.foldl dedupeStep [] ∧
      st'.dedupedByTitle.length < m) := by
  intro page
  induction page with
  | nil =>
    intro st pk hpage hworks hinv hlen
    constructor
    · intro early hearly
      simp [processPage] at hearly
    · intro st' pk' h
      have h' : (Sum.inl (st, pk) : FetchState × Nat ⊕ List Work) = .inl (st', pk') := h
      cases h'
      exact ⟨hworks, hinv, hlen⟩
  | cons w rest ih =>
    intro st pk hpage hworks hinv hlen
    have hw : normalizeTitle w.title ≠ "" := hpage w (List.mem_cons_self w rest)
    have hrest : ∀ x ∈ rest, normalizeTitle x.title ≠ "" := fun x hx =>
      hpage x (List.mem_cons_of_mem w hx)
    by_cases hkn : knownHas knownIds w.id = true
    · have hstep : processPage (some m) knownIds st pk (w :: rest)
          = processPage (some m) knownIds st (pk + 1) rest := by
        simp [processPage, hkn]
      rw [hstep]
      exact ih st (pk + 1) hrest hworks hinv hlen
    · have hworks' : ∀ x ∈ st.works ++ [w], normalizeTitle x.title ≠ "" := by
        intro x hx
        rcases List.mem_append.mp hx with h | h
        · exact hworks x h
        · rw [List.mem_singleton.mp h]
          exact hw
      have hinv' : trackStep st.dedupedByTitle w
          = (st.works ++ [w]).foldl dedupeStep [] := by
        rw [List.foldl_append]
        simp only [List.foldl_cons, List.foldl_nil]
        rw [trackStep_eq_dedupeStep _ _ hw, hinv]
      by_cases hmax : maxReached (some m)
          (trackStep st.dedupedByTitle w).length = true
      · have hstep : processPage (some m) knownIds st pk (w :: rest)
            = .inr ((dedupeWorksByTitle (st.works ++ [w])).take m) := by
          simp [processPage, hkn, hmax]
        constructor
        · intro early hearly
          rw [hstep] at hearly
          have hlen2 : ((dedupeWorksByTitle (st.works ++ [w])).take m).length ≤ m := by
            rw [List.length_take]
            exact min_le_left m _
          have heq : (dedupeWorksByTitle (st.works ++ [w])).take m = early := by
            injection hearly
          rw [← heq]
          exact hlen2
        · intro st' pk' h
          rw [hstep] at h
          cases h
      · have hlen' : (trackStep st.dedupedByTitle w).length < m := by
          have hm0 : m ≠ 0 := by omega
          simp [maxReached, hm0] at hmax
          omega
        have hstep : processPage (some m) knownIds st pk (w :: rest)
            = processPage (some m) knownIds ⟨st.works ++ [w],
                trackStep st.dedupedByTitle w⟩ pk rest := by
          simp [processPage, hkn, hmax]
        rw [hstep]
        exact ih ⟨st.works ++ [w], trackStep st.dedupedByTitle w⟩ pk hrest
          hworks' hinv' hlen'

theorem fetchPagesLoop_bound (m : Nat) (hm : 0 < m) (knownIds : Option (List String)) :
    ∀ (pages : List (List Work)) (st : FetchState),
    (∀ page ∈ pages, ∀ w ∈ page, normalizeTitle w.title ≠ "") →
    (∀ w ∈ st.works, normalizeTitle w.title ≠ "") →
    st.dedupedByTitle = st.works.foldl dedupeStep [] →
    st.dedupedByTitle.length < m →
    (fetchPagesLoop (some m) knownIds st pages).length ≤ m := by
  intro pages
  induction pages with
  | nil =>
    intro st hpg hworks hinv hlen
    show (dedupeWorksByTitle st.works).length ≤ m
    rw [dedupe_length, ← hinv]
    omega
  | cons page rest ih =>
    intro st hpg hworks hinv hlen
    obtain ⟨hearly, hcont⟩ := processPage_bound m hm knownIds page st 0
      (hpg page (List.mem_cons_self page rest)) hworks hinv hlen
    cases hproc : processPage (some m) knownIds st 0 page with
    | inr early =>
      have hstep : fetchPagesLoop (some m) knownIds st (page :: rest) = early := by
        simp [fetchPagesLoop, hproc]
      rw [hstep]
      exact hearly early hproc
    | inl stpk =>
      obtain ⟨st', pk⟩ := stpk
      obtain ⟨hworks', hinv', hlen'⟩ := hcont st' pk hproc
      by_cases hbrk : (knownIds.isSome && decide (0 < page.length)
          && decide (pk = page.length)) = true
      · have hstep : fetchPagesLoop (some m) knownIds st (page :: rest)
            = dedupeWorksByTitle st'.works := by
          simp [fetchPagesLoop, hproc, hbrk]
        rw [hstep, dedupe_length, ← hinv']
        omega
      · have hstep : fetchPagesLoop (some m) knownIds st (page :: rest)
            = fetchPagesLoop (some m) knownIds st' rest := by
          simp [fetchPagesLoop, hproc, hbrk]
        rw [hstep]
        exact ih st' (fun p hp => hpg p (List.mem_cons_of_mem page hp))
          hworks' hinv' hlen'

/-- C6 counterexample: with a positive bound of 1 and a single page of two
works whose titles normalize to the empty key, `fetchAuthorWorks` returns
2 works — the exhausted-loop path returns the deduplicated list without
truncation, and empty-title-key works never advance the bound tracker. -/
theorem fetchAuthorWorks_bound_violated :
    (fetchAuthorWorks [[⟨"W1", "!", "", "", "", "", 0, "", "", none⟩,
        ⟨"W2", "?", "", "", "", "", 0, "", "", none⟩]] (some 1) none false).length = 2 ∧
    1 < 2 := by
  refine ⟨by decide, by decide⟩

/-- C6 (amended): for every positive maximum-count parameter, the works
returned by `fetchAuthorWorks` number at most that bound, provided every
discovered work has a nonempty normalized title key (works whose titles
normalize to the empty key are invisible to the bound tracker and exempt
from the bound). -/
theorem fetchAuthorWorks_bounded (pages : List (List Work)) (m : Nat)
    (knownWorkIds : Option (List String)) (fullRefresh : Bool) (hm : 0 < m)
    (hti : ∀ page ∈ pages, ∀ w ∈ page, normalizeTitle w.title ≠ "") :
    (fetchAuthorWorks pages (some m) knownWorkIds fullRefresh).length ≤ m := by
  unfold fetchAuthorWorks
  apply fetchPagesLoop_bound m hm _ pages ⟨[], []⟩ hti
  · intro w hw
    cases hw
  · rfl
  · simpa using hm

/-- Witness for the amended C6 at a concrete titled page. -/
theorem fetchAuthorWorks_bounded_witness :
    (fetchAuthorWorks [[⟨"W1", "A", "", "", "", "", 0, "", "", none⟩,
        ⟨"W2", "B", "", "", "", "", 0, "", "", none⟩]] (some 1) none false).length ≤ 1 :=
  fetchAuthorWorks_bounded [[⟨"W1", "A", "", "", "", "", 0, "", "", none⟩,
      ⟨"W2", "B", "", "", "", "", 0, "", "", none⟩]] 1 none false (by decide)
    (by decide)
